import Mathlib

/-! Verification of the one-way ANOVA / Tukey HSD core of the dsc-anova
repository.  The notebook delegates the numeric work to library routines; the
algorithm is specified in the repository's design document (sections 4.1 and
4.2), so the statistical core below is modelled from that specification, while
the pairwise t-test driver loop is embedded directly from the notebook source
(cell-10).  Numeric observations are modelled as exact rationals. -/

/-- A grouped sample: groups in a fixed order, each a label together with its
ordered sequence of observations (spec section 3, GroupedSample). -/
abbrev GroupedSample := List (String × List ℚ)

/-- Total number of observations n in a sample. -/
def obsCount (s : GroupedSample) : ℕ := (s.map (fun g => g.2.length)).sum

/-- Number of groups k in a sample. -/
def groupCount (s : GroupedSample) : ℕ := s.length

/-- Sum of all observations of the sample. -/
def totalSum (s : GroupedSample) : ℚ := (s.map (fun g => g.2.sum)).sum

/-- Mean of a list of rationals (rational division, hence 0 for the empty
list). -/
def listMean (l : List ℚ) : ℚ := l.sum / l.length

/-- Grand mean over all observations (spec 4.1, step 1). -/
def grandMean (s : GroupedSample) : ℚ := totalSum s / obsCount s

/-- Modelled from the spec: between-group sum of squares, spec 4.1 step 3:
sum over groups of (group size × (group mean − grand mean)²).  The computation
itself lives in the external statistics libraries, not under src/. -/
def ssBetween (s : GroupedSample) : ℚ :=
  (s.map (fun g => (g.2.length : ℚ) * (listMean g.2 - grandMean s) ^ 2)).sum

/-- Modelled from the spec: within-group (residual) sum of squares, spec 4.1
step 4: sum over groups of the squared deviations from the group mean. -/
def ssWithin (s : GroupedSample) : ℚ :=
  (s.map (fun g => (g.2.map (fun x => (x - listMean g.2) ^ 2)).sum)).sum

/-- Total sum of squares: squared deviations of every observation from the
grand mean. -/
def ssTotal (s : GroupedSample) : ℚ :=
  (s.map (fun g => (g.2.map (fun x => (x - grandMean s) ^ 2)).sum)).sum

/-- Between-group degrees of freedom, spec 4.1 step 5. -/
def dfBetween (s : GroupedSample) : ℕ := groupCount s - 1

/-- Residual degrees of freedom, spec 4.1 step 5. -/
def dfResidual (s : GroupedSample) : ℕ := obsCount s - groupCount s

/-- Mean square between groups, spec 4.1 step 6. -/
def msBetween (s : GroupedSample) : ℚ := ssBetween s / (dfBetween s : ℚ)

/-- Residual mean square, spec 4.1 step 6. -/
def msResidual (s : GroupedSample) : ℚ := ssWithin s / (dfResidual s : ℚ)

/-- F statistic, spec 4.1 step 7. -/
def fStat (s : GroupedSample) : ℚ := msBetween s / msResidual s

/-- A reported statistic value: a finite rational, or one of the sentinel
values +infinity / NaN that the spec requires for numeric degeneracies
(spec 4.1 edge cases, section 7). -/
inductive StatVal where
  | fin (q : ℚ)
  | posInf
  | nan
deriving DecidableEq, Repr

/-- Structural error kinds of the spec (section 7). -/
inductive StatError where
  | degenerateSample
  | emptyGroup
  | insufficientGroups
deriving DecidableEq, Repr

/-- One-way ANOVA result table (spec section 3, ANOVATable). -/
structure AnovaTable where
  ssB : ℚ
  ssResid : ℚ
  dfB : ℕ
  dfResid : ℕ
  msB : ℚ
  msResid : ℚ
  fVal : StatVal
  pVal : StatVal
deriving DecidableEq, Repr

/-- Modelled from the spec: single-factor variance decomposition
(spec 4.1 `decompose`).  `fTail` is the external F-distribution upper-tail
provider (spec section 6).  Residual degrees of freedom ≤ 0 raise
`DegenerateSampleError`; zero residual mean square yields the sentinel values
of spec 4.1's edge cases. -/
def decompose (fTail : ℚ → ℕ → ℕ → ℚ) (s : GroupedSample) :
    Except StatError AnovaTable :=
  if obsCount s ≤ groupCount s then .error .degenerateSample
  else
    let msB := msBetween s
    let msR := msResidual s
    let fp : StatVal × StatVal :=
      if msR = 0 then
        if 0 < msB then (.posInf, .fin 0) else (.nan, .nan)
      else (.fin (msB / msR), .fin (fTail (msB / msR) (dfBetween s) (dfResidual s)))
    .ok ⟨ssBetween s, ssWithin s, dfBetween s, dfResidual s, msB, msR, fp.1, fp.2⟩

/-- The race labels of notebook cell-4. -/
def racesList : List String := ["asian", "black", "latino", "other", "white"]

/-- One outer iteration of the notebook's cell-10 loop: first append to
`race_pairs` all pairs whose first index is the current outer index, then run
(t-test) every pair of the accumulated `race_pairs` list.  The state is
(race_pairs, trace of pairs tested so far). -/
def cell10Step (races : List String)
    (st : List (String × String) × List (String × String)) (i : ℕ) :
    List (String × String) × List (String × String) :=
  let pairs := st.1 ++
    (List.range' (i + 1) (races.length - (i + 1))).map
      (fun j => (races.getD i "", races.getD j ""))
  (pairs, st.2 ++ pairs)

/-- The full cell-10 loop: final `race_pairs` list and the trace of all
pairwise t-tests actually conducted, in order. -/
def cell10Trace (races : List String) :
    List (String × String) × List (String × String) :=
  (List.range races.length).foldl (cell10Step races) ([], [])

/-- Claim C1: on the notebook's five race labels, cell-10 accumulates the
C(5,2) = 10 unordered pairs in `race_pairs`, but its inner loop re-runs the
accumulated list on every outer iteration, conducting 40 t-tests in total and
testing the pair (asian, black) five times — not exactly once per pair as the
claim states. -/
theorem cell10_repeats_pairwise_ttests :
    (cell10Trace racesList).1.length = 10 ∧
    Nat.choose racesList.length 2 = 10 ∧
    (cell10Trace racesList).2.length = 40 ∧
    (cell10Trace racesList).2.count ("asian", "black") = 5 := by
  decide

/-- Expansion of a sum of squared deviations about an arbitrary point. -/
theorem sum_sq_expand (l : List ℚ) (c : ℚ) :
    (l.map (fun x => (x - c) ^ 2)).sum
      = (l.map (fun x => x ^ 2)).sum - 2 * c * l.sum + (l.length : ℚ) * c ^ 2 := by
  induction l with
  | nil => simp
  | cons a t ih =>
    simp only [List.map_cons, List.sum_cons, List.length_cons, ih]
    push_cast
    ring

/-- The list length times the list mean is the list sum (also for the empty
list, where both sides vanish). -/
theorem length_mul_listMean (l : List ℚ) : (l.length : ℚ) * listMean l = l.sum := by
  rcases eq_or_ne l [] with h | h
  · simp [h, listMean]
  · have hlen : (l.length : ℚ) ≠ 0 :=
      Nat.cast_ne_zero.mpr (fun hl => h (List.length_eq_zero.mp hl))
    rw [listMean, mul_comm]
    exact div_mul_cancel₀ _ hlen

/-- Decomposition of a group's squared deviations about an arbitrary point
into the deviation of its mean plus its internal scatter. -/
theorem group_decomp (l : List ℚ) (c : ℚ) :
    (l.map (fun x => (x - c) ^ 2)).sum
      = (l.length : ℚ) * (listMean l - c) ^ 2
        + (l.map (fun x => (x - listMean l) ^ 2)).sum := by
  rw [sum_sq_expand l c, sum_sq_expand l (listMean l)]
  linear_combination (2 * c - 2 * listMean l) * length_mul_listMean l

/-- Summing the per-group decomposition over all groups, for a fixed centre
point c. -/
theorem sum_group_decomp (s : GroupedSample) (c : ℚ) :
    (s.map (fun g => (g.2.map (fun x => (x - c) ^ 2)).sum)).sum
      = (s.map (fun g => (g.2.length : ℚ) * (listMean g.2 - c) ^ 2)).sum
        + (s.map (fun g => (g.2.map (fun x => (x - listMean g.2) ^ 2)).sum)).sum := by
  induction s with
  | nil => simp
  | cons g t ih =>
    simp only [List.map_cons, List.sum_cons, ih, group_decomp g.2 c]
    ring

/-- The ANOVA partition identity: between plus within sum of squares equals
the total sum of squares, exactly, for every grouped sample. -/
theorem ss_partition (s : GroupedSample) : ssBetween s + ssWithin s = ssTotal s := by
  rw [ssBetween, ssWithin, ssTotal, sum_group_decomp s (grandMean s)]

/-- The concrete sample of the spec's section 8 scenario:
A = [1,2,3], B = [4,5,6], C = [7,8,9]. -/
def sampleABC : GroupedSample := [("A", [1, 2, 3]), ("B", [4, 5, 6]), ("C", [7, 8, 9])]

/-- Claim C3: on groups A=[1,2,3], B=[4,5,6], C=[7,8,9] the decomposition
returns SS_between = 54, SS_residual = 6, df_between = 2, df_residual = 6,
MS_between = 27, MS_residual = 1 and F = 27, for any F-distribution
provider. -/
theorem concrete_abc_table (fTail : ℚ → ℕ → ℕ → ℚ) :
    (decompose fTail sampleABC).map
        (fun t => (t.ssB, t.ssResid, t.dfB, t.dfResid, t.msB, t.msResid, t.fVal))
      = .ok (54, 6, 2, 6, 27, 1, .fin 27) := by
  have hb : ssBetween sampleABC = 54 := by
    norm_num [ssBetween, sampleABC, listMean, grandMean, totalSum, obsCount]
  have hw : ssWithin sampleABC = 6 := by
    norm_num [ssWithin, sampleABC, listMean]
  have hdb : dfBetween sampleABC = 2 := by norm_num [dfBetween, groupCount, sampleABC]
  have hdr : dfResidual sampleABC = 6 := by
    norm_num [dfResidual, obsCount, groupCount, sampleABC]
  have hmb : msBetween sampleABC = 27 := by rw [msBetween, hb, hdb]; norm_num
  have hmr : msResidual sampleABC = 1 := by rw [msResidual, hw, hdr]; norm_num
  have hno : ¬ obsCount sampleABC ≤ groupCount sampleABC := by
    norm_num [obsCount, groupCount, sampleABC]
  simp only [decompose, hno, if_false, hmb, hmr, hb, hw, hdb, hdr, ite_false]
  norm_num [Except.map]

/-- Shortcut form of a group's internal scatter: the squared deviations from
the group mean equal the raw sum of squares minus length times squared mean. -/
theorem group_shortcut (l : List ℚ) :
    (l.map (fun x => (x - listMean l) ^ 2)).sum
      = (l.map (fun x => x ^ 2)).sum - (l.length : ℚ) * listMean l ^ 2 := by
  rw [sum_sq_expand l (listMean l)]
  linear_combination (2 * listMean l) * length_mul_listMean l

/-- Modelled from the spec: the pooled mean square error used by TukeyHSD
(spec 4.2 step 1), computed the way a pooled-variance implementation does it:
per-group raw sums of squares minus size times squared group mean, summed over
all groups and divided by the residual degrees of freedom. -/
def tukeyMSError (s : GroupedSample) : ℚ :=
  (s.map (fun g =>
      (g.2.map (fun x => x ^ 2)).sum - (g.2.length : ℚ) * listMean g.2 ^ 2)).sum
    / (dfResidual s : ℚ)

/-- Claim C4: TukeyHSD's pooled mean square error coincides exactly with the
residual mean square of the variance decomposition, on every grouped
sample. -/
theorem tukey_mse_eq_anova_ms_resid (s : GroupedSample) :
    tukeyMSError s = msResidual s := by
  rw [tukeyMSError, msResidual, ssWithin]
  congr 1
  induction s with
  | nil => rfl
  | cons g t ih => simp only [List.map_cons, List.sum_cons, ih, group_shortcut g.2]

/-- The group mean minimizes the sum of squared deviations; this justifies
modelling the external least-squares collaborator's fitted values for a single
categorical factor by the group means. -/
theorem listMean_minimizes (l : List ℚ) (c : ℚ) :
    (l.map (fun x => (x - listMean l) ^ 2)).sum ≤ (l.map (fun x => (x - c) ^ 2)).sum := by
  rw [group_decomp l c]
  have h : 0 ≤ (l.length : ℚ) * (listMean l - c) ^ 2 := by positivity
  linarith

/-- Modelled from the spec: the residual sum of squares delivered by the
external fitted-linear-model collaborator for the single-factor model
`response ~ factor` (spec sections 2 and 6).  An ordinary-least-squares fit on
one categorical factor fits each group by its mean (see `listMean_minimizes`),
so its residual sum of squares is the within-group sum of squares. -/
def modelResidualSS (s : GroupedSample) : ℚ := ssWithin s

/-- Modelled from the spec: the single factor's Type II sum of squares in the
linear-model path, total minus model residual (with one factor there is
nothing else to hold fixed). -/
def lmFactorSS (s : GroupedSample) : ℚ := ssTotal s - modelResidualSS s

/-- F statistic of the linear-model / `anova_lm` path on a single factor. -/
def lmPathF (s : GroupedSample) : ℚ :=
  (lmFactorSS s / (dfBetween s : ℚ)) / (modelResidualSS s / (dfResidual s : ℚ))

/-- Claim C10: the F statistic (and hence the p-value computed from it by any
F-distribution provider) of the linear-model Type II path equals the F
statistic of the direct one-way ANOVA on the same grouped observations. -/
theorem lm_typ2_path_eq_oneway (s : GroupedSample) (fTail : ℚ → ℕ → ℕ → ℚ) :
    lmPathF s = fStat s ∧
    fTail (lmPathF s) (dfBetween s) (dfResidual s)
      = fTail (fStat s) (dfBetween s) (dfResidual s) := by
  have hss : lmFactorSS s = ssBetween s := by
    rw [lmFactorSS, modelResidualSS, ← ss_partition s]
    ring
  have hF : lmPathF s = fStat s := by
    rw [lmPathF, fStat, msBetween, msResidual, hss, modelResidualSS]
  exact ⟨hF, by rw [hF]⟩

/-- Modelled from the spec: a row of a two-binary-factor dataset for the
multi-factor ANOVA path: (level of factor A, level of factor B, response). -/
abbrev FRow := ℚ × ℚ × ℚ

/-- Sum of a numeric column over a dataset. -/
def colSum (d : List FRow) (f : FRow → ℚ) : ℚ := (d.map f).sum

/-- Determinant of a 3 × 3 matrix given row-wise. -/
def det3 (a b c d e f g h i : ℚ) : ℚ :=
  a * (e * i - f * h) - b * (d * i - f * g) + c * (d * h - e * g)

/-- Residual sum of squares of the additive two-factor linear model at given
coefficients (intercept, factor-A effect, factor-B effect). -/
def rssAt (d : List FRow) (c a b : ℚ) : ℚ :=
  (d.map (fun r => (r.2.2 - (c + a * r.1 + b * r.2.1)) ^ 2)).sum

/-- Modelled from the spec: the external ordinary-least-squares collaborator
(spec sections 2, 6) fitting the full additive model y ~ A + B, as the
solution of its normal equations by Cramer's rule. -/
def olsFullCoeffs (d : List FRow) : ℚ × ℚ × ℚ :=
  let n : ℚ := d.length
  let sa := colSum d (fun r => r.1)
  let sb := colSum d (fun r => r.2.1)
  let saa := colSum d (fun r => r.1 ^ 2)
  let sbb := colSum d (fun r => r.2.1 ^ 2)
  let sab := colSum d (fun r => r.1 * r.2.1)
  let sy := colSum d (fun r => r.2.2)
  let say := colSum d (fun r => r.1 * r.2.2)
  let sby := colSum d (fun r => r.2.1 * r.2.2)
  let dd := det3 n sa sb sa saa sab sb sab sbb
  (det3 sy sa sb say saa sab sby sab sbb / dd,
   det3 n sy sb sa say sab sb sby sbb / dd,
   det3 n sa sy sa saa say sb sab sby / dd)

/-- Residual sum of squares of the fitted full model y ~ A + B. -/
def rssFull (d : List FRow) : ℚ :=
  rssAt d (olsFullCoeffs d).1 (olsFullCoeffs d).2.1 (olsFullCoeffs d).2.2

/-- OLS fit of the submodel y ~ A (2 × 2 normal equations). -/
def olsACoeffs (d : List FRow) : ℚ × ℚ :=
  let n : ℚ := d.length
  let sa := colSum d (fun r => r.1)
  let saa := colSum d (fun r => r.1 ^ 2)
  let sy := colSum d (fun r => r.2.2)
  let say := colSum d (fun r => r.1 * r.2.2)
  let dd := n * saa - sa * sa
  ((sy * saa - sa * say) / dd, (n * say - sa * sy) / dd)

/-- Residual sum of squares of the fitted submodel y ~ A. -/
def rssOnlyA (d : List FRow) : ℚ :=
  (d.map (fun r => (r.2.2 - ((olsACoeffs d).1 + (olsACoeffs d).2 * r.1)) ^ 2)).sum

/-- OLS fit of the submodel y ~ B (2 × 2 normal equations). -/
def olsBCoeffs (d : List FRow) : ℚ × ℚ :=
  let n : ℚ := d.length
  let sb := colSum d (fun r => r.2.1)
  let sbb := colSum d (fun r => r.2.1 ^ 2)
  let sy := colSum d (fun r => r.2.2)
  let sby := colSum d (fun r => r.2.1 * r.2.2)
  let dd := n * sbb - sb * sb
  ((sy * sbb - sb * sby) / dd, (n * sby - sb * sy) / dd)

/-- Residual sum of squares of the fitted submodel y ~ B. -/
def rssOnlyB (d : List FRow) : ℚ :=
  (d.map (fun r => (r.2.2 - ((olsBCoeffs d).1 + (olsBCoeffs d).2 * r.2.1)) ^ 2)).sum

/-- Total sum of squares of the responses about their mean. -/
def tssRows (d : List FRow) : ℚ :=
  (d.map (fun r => (r.2.2 - colSum d (fun p => p.2.2) / d.length) ^ 2)).sum

/-- Modelled from the spec: Type II sum of squares of factor A — each factor's
contribution computed holding all other factors fixed, i.e. the residual sum
of squares of the model omitting A minus that of the full model. -/
def typeIISSA (d : List FRow) : ℚ := rssOnlyB d - rssFull d

/-- Modelled from the spec: Type II sum of squares of factor B. -/
def typeIISSB (d : List FRow) : ℚ := rssOnlyA d - rssFull d

/-- Residual degrees of freedom of the additive two-binary-factor model
(three fitted coefficients). -/
def twoFactorResidDF (d : List FRow) : ℕ := d.length - 3

/-- An unbalanced two-binary-factor dataset: the cell (A=1, B=1) is observed
twice, every other cell once. -/
def unbalancedRows : List FRow := [(0, 0, 0), (1, 0, 2), (0, 1, 2), (1, 1, 10), (1, 1, 10)]

/-- The full-model residual sum of squares on the unbalanced dataset, as an
explicit sum of squares about the normal-equation solution: this certifies
that the Cramer solution minimizes the residual sum of squares there. -/
theorem rssAt_unbalanced_decomp (c a b : ℚ) :
    rssAt unbalancedRows c a b
      = 72 / 7 + 5 * (c + 12 / 7 + 3 / 5 * (a - 38 / 7) + 3 / 5 * (b - 38 / 7)) ^ 2
        + 1 / 5 * ((a - 38 / 7) + (b - 38 / 7)) ^ 2
        + (a - 38 / 7) ^ 2 + (b - 38 / 7) ^ 2 := by
  simp only [rssAt, unbalancedRows, List.map_cons, List.map_nil, List.sum_cons, List.sum_nil]
  ring

/-- The Cramer-rule fit of the full model is least-squares optimal on the
unbalanced dataset. -/
theorem rssFull_unbalanced_min (c a b : ℚ) :
    rssFull unbalancedRows ≤ rssAt unbalancedRows c a b := by
  have hv : rssFull unbalancedRows = 72 / 7 := by
    norm_num [rssFull, rssAt, olsFullCoeffs, colSum, det3, unbalancedRows]
  rw [hv, rssAt_unbalanced_decomp]
  have h1 : (0:ℚ) ≤ 5 * (c + 12 / 7 + 3 / 5 * (a - 38 / 7) + 3 / 5 * (b - 38 / 7)) ^ 2 := by
    positivity
  have h2 : (0:ℚ) ≤ 1 / 5 * ((a - 38 / 7) + (b - 38 / 7)) ^ 2 := by positivity
  have h3 : (0:ℚ) ≤ (a - 38 / 7) ^ 2 := sq_nonneg _
  have h4 : (0:ℚ) ≤ (b - 38 / 7) ^ 2 := sq_nonneg _
  linarith

/-- The submodel y ~ A residual sum of squares on the unbalanced dataset, as
an explicit sum of squares about its normal-equation solution. -/
theorem rssA_unbalanced_decomp (c a : ℚ) :
    (unbalancedRows.map (fun r => (r.2.2 - (c + a * r.1)) ^ 2)).sum
      = 134 / 3 + 5 * (c - 1 + 3 / 5 * (a - 19 / 3)) ^ 2 + 6 / 5 * (a - 19 / 3) ^ 2 := by
  simp only [unbalancedRows, List.map_cons, List.map_nil, List.sum_cons, List.sum_nil]
  ring

/-- Claim C2 (counterexample): on an unbalanced two-binary-factor design the
Type II factor sums of squares plus the residual sum of squares differ from
the total sum of squares (1660/21 versus 464/5), refuting the multi-factor
additivity conjunct; the optimality of the fitted values used is certified by
`rssFull_unbalanced_min` and `rssA_unbalanced_decomp`. -/
theorem typeII_ss_not_additive_on_unbalanced :
    rssFull unbalancedRows = 72 / 7 ∧
    typeIISSA unbalancedRows = 722 / 21 ∧
    typeIISSB unbalancedRows = 722 / 21 ∧
    tssRows unbalancedRows = 464 / 5 ∧
    typeIISSA unbalancedRows + typeIISSB unbalancedRows + rssFull unbalancedRows
      ≠ tssRows unbalancedRows := by
  norm_num [typeIISSA, typeIISSB, rssFull, rssOnlyA, rssOnlyB, olsFullCoeffs,
    olsACoeffs, olsBCoeffs, tssRows, colSum, det3, rssAt, unbalancedRows]

/-- Claim C2 (amended): for every grouped sample with k ≥ 2 groups and
n ≥ k + 1 observations, SS_between + SS_residual = SS_total exactly (hence
within any tolerance) and df_between + df_residual = n − 1; in the
multi-factor model the degrees of freedom still sum to n − 1, while Type II
sum-of-squares additivity does not hold in general. -/
theorem ss_partition_and_df_sum (s : GroupedSample)
    (hk : 2 ≤ groupCount s) (hn : groupCount s + 1 ≤ obsCount s)
    (d : List FRow) (hd : 3 ≤ d.length) :
    ssBetween s + ssWithin s = ssTotal s ∧
    dfBetween s + dfResidual s = obsCount s - 1 ∧
    1 + 1 + twoFactorResidDF d = d.length - 1 := by
  refine ⟨ss_partition s, ?_, ?_⟩
  · unfold dfBetween dfResidual
    omega
  · unfold twoFactorResidDF
    omega

/-- Witness for the amended claim C2 at the concrete spec scenario and the
five-row two-factor dataset. -/
theorem ss_partition_and_df_sum_witness :
    ssBetween sampleABC + ssWithin sampleABC = ssTotal sampleABC ∧
    dfBetween sampleABC + dfResidual sampleABC = obsCount sampleABC - 1 ∧
    1 + 1 + twoFactorResidDF unbalancedRows = unbalancedRows.length - 1 :=
  ss_partition_and_df_sum sampleABC
    (by norm_num [groupCount, sampleABC])
    (by norm_num [groupCount, obsCount, sampleABC])
    unbalancedRows (by norm_num [unbalancedRows])

/-- All pairs (earlier element, later element) of a list: each unordered pair
of distinct positions appears exactly once, in a fixed deterministic order
(spec 4.2 ordering rule). -/
def allPairs {α : Type} : List α → List (α × α)
  | [] => []
  | a :: t => t.map (fun b => (a, b)) ++ allPairs t

/-- The number of pairs enumerated is C(n, 2). -/
theorem allPairs_length {α : Type} (l : List α) :
    (allPairs l).length = l.length.choose 2 := by
  induction l with
  | nil => rfl
  | cons a t ih =>
    simp only [allPairs, List.length_append, List.length_map, ih, List.length_cons]
    rw [Nat.choose_succ_succ, Nat.choose_one_right]

/-- Both components of an enumerated pair are members of the list. -/
theorem mem_allPairs {α : Type} {l : List α} {p : α × α} (h : p ∈ allPairs l) :
    p.1 ∈ l ∧ p.2 ∈ l := by
  induction l with
  | nil => cases h
  | cons a t ih =>
    rcases List.mem_append.mp h with h1 | h2
    · rcases List.mem_map.mp h1 with ⟨b, hb, rfl⟩
      exact ⟨List.mem_cons_self a t, List.mem_cons_of_mem a hb⟩
    · rcases ih h2 with ⟨ha, hb⟩
      exact ⟨List.mem_cons_of_mem a ha, List.mem_cons_of_mem a hb⟩

/-- Modelled from the spec: the external studentized-range distribution
provider (spec section 6), represented on the squared scale so that all
quantities stay in exact rationals: `qcritSq alpha k df` is the square of the
upper-alpha critical value q* (spec 4.2 step 4), and `tailSq x k df` is the
upper-tail probability at the statistic whose square is x (spec 4.2
step 6). -/
structure SRDProvider where
  qcritSq : ℚ → ℕ → ℕ → ℚ
  tailSq : ℚ → ℕ → ℕ → ℚ

/-- Coherence of a provider at given alpha, k, df: its critical value is
exactly the upper-alpha quantile of its tail function (spec 4.2 step 4). -/
def CoherentSRD (P : SRDProvider) (alpha : ℚ) (k df : ℕ) : Prop :=
  ∀ x : ℚ, P.tailSq x k df < alpha ↔ P.qcritSq alpha k df < x

/-- One pairwise Tukey comparison record (spec section 3).  The squared
fields seSq = SE² (spec 4.2 step 3) and marginSq = margin² = q*²·SE²/2
(spec 4.2 step 5, margin = q*·SE/√2) represent the irrational standard error
and margin exactly in rationals; the confidence interval
mean difference ± margin is determined by meandiff and marginSq. -/
structure PairwiseComparison where
  group1 : String
  group2 : String
  meandiff : ℚ
  seSq : ℚ
  marginSq : ℚ
  padj : ℚ
  reject : Bool
deriving DecidableEq, Repr

/-- Modelled from the spec: one pairwise comparison (spec 4.2 steps 2–7).
The squared observed standardized difference is q_obs² = 2·meandiff²/SE²
(spec 4.2 step 6), and reject means |meandiff| > margin, in squared form
(spec 4.2 step 7). -/
def comparePair (P : SRDProvider) (alpha : ℚ) (k df : ℕ) (msErr : ℚ)
    (g1 g2 : String × List ℚ) : PairwiseComparison :=
  let md := listMean g2.2 - listMean g1.2
  let seSq := msErr / 2 * (1 / (g1.2.length : ℚ) + 1 / (g2.2.length : ℚ))
  let marginSq := P.qcritSq alpha k df * seSq / 2
  ⟨g1.1, g2.1, md, seSq, marginSq, P.tailSq (2 * md ^ 2 / seSq) k df,
    decide (marginSq < md ^ 2)⟩

/-- Modelled from the spec: `pairwiseCompare` (spec 4.2): structural error
checks first, then one record per unordered pair of distinct groups. -/
def pairwiseCompare (P : SRDProvider) (s : GroupedSample) (alpha : ℚ) :
    Except StatError (List PairwiseComparison) :=
  if groupCount s < 2 then .error .insufficientGroups
  else if s.any (fun g => g.2.isEmpty) then .error .emptyGroup
  else .ok ((allPairs s).map (fun gg =>
    comparePair P alpha (groupCount s) (dfResidual s) (tukeyMSError s) gg.1 gg.2))

/-- Claim C6: whenever the provider's critical value is the upper-alpha
quantile of its tail function, every comparison produced by pairwiseCompare
has reject = true iff the adjusted p-value is strictly below alpha, iff the
squared mean difference exceeds the squared margin (the confidence interval
excludes 0). -/
theorem reject_iff_padj_lt_alpha (P : SRDProvider) (s : GroupedSample) (alpha : ℚ)
    (rs : List PairwiseComparison) (r : PairwiseComparison)
    (hok : pairwiseCompare P s alpha = .ok rs) (hr : r ∈ rs)
    (hco : CoherentSRD P alpha (groupCount s) (dfResidual s))
    (hne : ∀ g ∈ s, g.2 ≠ ([] : List ℚ))
    (hms : 0 < tukeyMSError s) :
    (r.reject = true ↔ r.padj < alpha) ∧
    (r.reject = true ↔ r.marginSq < r.meandiff ^ 2) := by
  rw [pairwiseCompare] at hok
  split_ifs at hok with h1 h2
  have hrs : rs = (allPairs s).map (fun gg =>
      comparePair P alpha (groupCount s) (dfResidual s) (tukeyMSError s) gg.1 gg.2) :=
    (Except.ok.injEq _ _).mp hok.symm
  subst hrs
  rcases List.mem_map.mp hr with ⟨gg, hgg, hrr⟩
  rcases mem_allPairs hgg with ⟨hm1, hm2⟩
  have hl1 : (0:ℚ) < gg.1.2.length := by
    have := hne gg.1 hm1
    have : gg.1.2.length ≠ 0 := fun hz => this (List.length_eq_zero.mp hz)
    exact_mod_cast Nat.pos_of_ne_zero this
  have hl2 : (0:ℚ) < gg.2.2.length := by
    have := hne gg.2 hm2
    have : gg.2.2.length ≠ 0 := fun hz => this (List.length_eq_zero.mp hz)
    exact_mod_cast Nat.pos_of_ne_zero this
  set md := listMean gg.2.2 - listMean gg.1.2 with hmd
  set seSq := tukeyMSError s / 2 * (1 / (gg.1.2.length : ℚ) + 1 / (gg.2.2.length : ℚ))
    with hse
  have hsePos : 0 < seSq := by
    rw [hse]
    have h1' : (0:ℚ) < 1 / (gg.1.2.length : ℚ) := by positivity
    have h2' : (0:ℚ) < 1 / (gg.2.2.length : ℚ) := by positivity
    positivity
  have hreject : r.reject
      = decide (P.qcritSq alpha (groupCount s) (dfResidual s) * seSq / 2 < md ^ 2) := by
    rw [← hrr]; rfl
  have hpadj : r.padj = P.tailSq (2 * md ^ 2 / seSq) (groupCount s) (dfResidual s) := by
    rw [← hrr]; rfl
  have hmargin : r.marginSq
      = P.qcritSq alpha (groupCount s) (dfResidual s) * seSq / 2 := by
    rw [← hrr]; rfl
  have hmdiff : r.meandiff = md := by rw [← hrr]; rfl
  have key : P.qcritSq alpha (groupCount s) (dfResidual s) * seSq / 2 < md ^ 2
      ↔ P.qcritSq alpha (groupCount s) (dfResidual s) < 2 * md ^ 2 / seSq := by
    rw [div_lt_iff₀ (by norm_num : (0:ℚ) < 2), lt_div_iff₀ hsePos]
    constructor <;> intro h <;> nlinarith
  constructor
  · rw [hreject, hpadj, decide_eq_true_iff, hco, key]
  · rw [hreject, hmargin, hmdiff, decide_eq_true_iff]

/-- A concrete studentized-range provider used by witnesses: squared critical
value 9 and a tail function that steps from 1 to 0 there. -/
def witnessSRD : SRDProvider :=
  ⟨fun _ _ _ => 9, fun x _ _ => if 9 < x then 0 else 1⟩

/-- A concrete F-distribution tail function used by witnesses. -/
def witnessFTail : ℚ → ℕ → ℕ → ℚ := fun _ _ _ => 1

/-- A concrete two-group sample used by the Tukey witnesses. -/
def tukeySample : GroupedSample := [("A", [0, 2]), ("B", [4, 6])]

/-- The single comparison record pairwiseCompare produces on
`tukeySample`. -/
def tukeyRecord : PairwiseComparison :=
  comparePair witnessSRD (1 / 20) (groupCount tukeySample) (dfResidual tukeySample)
    (tukeyMSError tukeySample) ("A", [0, 2]) ("B", [4, 6])

/-- Witness for claim C6 at the concrete sample and provider. -/
theorem reject_iff_padj_lt_alpha_witness :
    (tukeyRecord.reject = true ↔ tukeyRecord.padj < 1 / 20) ∧
    (tukeyRecord.reject = true ↔ tukeyRecord.marginSq < tukeyRecord.meandiff ^ 2) :=
  reject_iff_padj_lt_alpha witnessSRD tukeySample (1 / 20) [tukeyRecord] tukeyRecord
    rfl (List.mem_singleton.mpr rfl)
    (by
      intro x
      by_cases h : (9:ℚ) < x <;> simp only [witnessSRD, h, if_true, if_false] <;> norm_num [h])
    (by
      intro g hg
      rcases List.mem_cons.mp hg with h | h
      · rw [h]; simp
      · rcases List.mem_cons.mp h with h2 | h2
        · rw [h2]; simp
        · cases h2)
    (by norm_num [tukeyMSError, tukeySample, listMean, dfResidual, obsCount, groupCount])

/-- Claim C9: pairwiseCompare raises InsufficientGroupsError for every input
with fewer than 2 groups; for at-least-2-group inputs containing an empty
group it raises EmptyGroupError; decompose raises DegenerateSampleError
whenever the residual degrees of freedom are ≤ 0.  In every case an error
value is returned and no result is produced. -/
theorem structural_errors_raised (P : SRDProvider) (fTail : ℚ → ℕ → ℕ → ℚ)
    (alpha : ℚ) (s : GroupedSample) :
    (groupCount s < 2 → pairwiseCompare P s alpha = .error .insufficientGroups) ∧
    (2 ≤ groupCount s → (∃ g ∈ s, g.2 = ([] : List ℚ)) →
      pairwiseCompare P s alpha = .error .emptyGroup) ∧
    (obsCount s ≤ groupCount s → decompose fTail s = .error .degenerateSample) := by
  refine ⟨?_, ?_, ?_⟩
  · intro h
    rw [pairwiseCompare, if_pos h]
  · intro h1 h2
    have hlt : ¬ groupCount s < 2 := by omega
    have hany : (s.any (fun g => g.2.isEmpty)) = true := by
      rcases h2 with ⟨g, hg, hE⟩
      exact List.any_eq_true.mpr ⟨g, hg, by rw [hE]; rfl⟩
    rw [pairwiseCompare, if_neg hlt, if_pos hany]
  · intro h
    rw [decompose, if_pos h]

/-- Witness for claim C9 at three concrete degenerate inputs. -/
theorem structural_errors_raised_witness :
    pairwiseCompare witnessSRD [("A", [1])] (1 / 20) = .error .insufficientGroups ∧
    pairwiseCompare witnessSRD [("A", [1]), ("B", [])] (1 / 20) = .error .emptyGroup ∧
    decompose witnessFTail [("A", [1]), ("B", [1])] = .error .degenerateSample :=
  ⟨(structural_errors_raised witnessSRD witnessFTail (1 / 20) [("A", [1])]).1
      (by norm_num [groupCount]),
   (structural_errors_raised witnessSRD witnessFTail (1 / 20)
        [("A", [1]), ("B", [])]).2.1 (by norm_num [groupCount])
      ⟨("B", []), by simp, rfl⟩,
   (structural_errors_raised witnessSRD witnessFTail (1 / 20)
        [("A", [1]), ("B", [1])]).2.2
      (by norm_num [obsCount, groupCount])⟩

/-- Claim C8: when the residual degrees of freedom are positive, every
within-group deviation vanishes (SS_residual = 0, hence MS_residual = 0) and
the between-group mean square is positive, the decomposition returns the
sentinel values F = +infinity and p-value = 0 in an ok result instead of an
error. -/
theorem zero_within_variance_sentinels (fTail : ℚ → ℕ → ℕ → ℚ) (s : GroupedSample)
    (hdf : groupCount s < obsCount s) (hw : ssWithin s = 0) (hb : 0 < msBetween s) :
    (decompose fTail s).map (fun t => (t.fVal, t.pVal))
      = .ok (.posInf, .fin 0) := by
  have hno : ¬ obsCount s ≤ groupCount s := by omega
  have hmr : msResidual s = 0 := by rw [msResidual, hw, zero_div]
  simp only [decompose, hmr]
  rw [if_neg hno, if_pos trivial, if_pos hb]
  rfl

/-- Witness for claim C8 at a concrete sample with zero within-group
variance and distinct group means. -/
theorem zero_within_variance_sentinels_witness :
    (decompose witnessFTail [("A", [1, 1]), ("B", [2, 2])]).map
        (fun t => (t.fVal, t.pVal)) = .ok (.posInf, .fin 0) :=
  zero_within_variance_sentinels witnessFTail [("A", [1, 1]), ("B", [2, 2])]
    (by norm_num [groupCount, obsCount])
    (by norm_num [ssWithin, listMean])
    (by norm_num [msBetween, ssBetween, dfBetween, groupCount, listMean,
      grandMean, totalSum, obsCount])

/-- The rearrangement-invariant key of a group: its label together with its
observations as a multiset. -/
def groupKey (g : String × List ℚ) : String × Multiset ℚ := (g.1, (g.2 : Multiset ℚ))

/-- Sums of any per-group quantity that depends only on the group key agree
across samples whose keyed group lists are permutations of each other. -/
theorem perm_groups_sum {M : Type} [AddCommMonoid M] {s t : GroupedSample}
    (h : (s.map groupKey).Perm (t.map groupKey)) (F : String × Multiset ℚ → M) :
    (s.map (fun g => F (groupKey g))).sum = (t.map (fun g => F (groupKey g))).sum := by
  have hp := (h.map F).sum_eq
  simpa [List.map_map, Function.comp] using hp

/-- Observation count depends only on the group keys. -/
theorem obsCount_key (s : GroupedSample) :
    obsCount s = (s.map (fun g => Multiset.card (groupKey g).2)).sum := by
  simp [obsCount, groupKey]

/-- Total sum depends only on the group keys. -/
theorem totalSum_key (s : GroupedSample) :
    totalSum s = (s.map (fun g => (groupKey g).2.sum)).sum := by
  simp [totalSum, groupKey]

/-- The between-group term of a group, as a function of its key and a fixed
centre point. -/
def keyBetween (c : ℚ) (p : String × Multiset ℚ) : ℚ :=
  (Multiset.card p.2 : ℚ) * (p.2.sum / Multiset.card p.2 - c) ^ 2

/-- The between-group sum for a fixed centre depends only on the group
keys. -/
theorem ssBetween_key (s : GroupedSample) (c : ℚ) :
    (s.map (fun g => (g.2.length : ℚ) * (listMean g.2 - c) ^ 2)).sum
      = (s.map (fun g => keyBetween c (groupKey g))).sum := by
  simp [keyBetween, groupKey, listMean]

/-- The within-group scatter of a group, as a function of its key. -/
def keyWithin (p : String × Multiset ℚ) : ℚ :=
  ((p.2.map (fun x => (x - p.2.sum / Multiset.card p.2) ^ 2))).sum

/-- The within-group sum of squares depends only on the group keys. -/
theorem ssWithin_key (s : GroupedSample) :
    ssWithin s = (s.map (fun g => keyWithin (groupKey g))).sum := by
  simp [ssWithin, keyWithin, groupKey, listMean]

/-- Claim C5: reordering the observations within groups, or reordering the
groups themselves (any rearrangement making the keyed group lists
permutations of each other), leaves SS_between, SS_residual, the F statistic
and the p-value computed from them by any F-distribution provider
unchanged. -/
theorem stats_invariant_under_reordering (s t : GroupedSample)
    (h : (s.map groupKey).Perm (t.map groupKey)) :
    ssBetween s = ssBetween t ∧ ssWithin s = ssWithin t ∧ fStat s = fStat t ∧
    ∀ fTail : ℚ → ℕ → ℕ → ℚ,
      fTail (fStat s) (dfBetween s) (dfResidual s)
        = fTail (fStat t) (dfBetween t) (dfResidual t) := by
  have hk : groupCount s = groupCount t := by
    have hl := h.length_eq
    simpa [groupCount] using hl
  have hn : obsCount s = obsCount t := by
    rw [obsCount_key s, obsCount_key t]
    exact perm_groups_sum h (fun p => Multiset.card p.2)
  have hsum : totalSum s = totalSum t := by
    rw [totalSum_key s, totalSum_key t]
    exact perm_groups_sum h (fun p => p.2.sum)
  have hgm : grandMean s = grandMean t := by
    rw [grandMean, grandMean, hn, hsum]
  have hb : ssBetween s = ssBetween t := by
    rw [ssBetween, ssBetween, ssBetween_key s (grandMean s),
      ssBetween_key t (grandMean t), ← hgm]
    exact perm_groups_sum h (keyBetween (grandMean s))
  have hw : ssWithin s = ssWithin t := by
    rw [ssWithin_key s, ssWithin_key t]
    exact perm_groups_sum h keyWithin
  have hf : fStat s = fStat t := by
    rw [fStat, fStat, msBetween, msBetween, msResidual, msResidual,
      dfBetween, dfBetween, dfResidual, dfResidual, hb, hw, hk, hn]
  refine ⟨hb, hw, hf, fun fTail => ?_⟩
  rw [hf, dfBetween, dfBetween, dfResidual, dfResidual, hk, hn]

/-- Witness for claim C5: a concrete sample, with its groups swapped and each
group's observations reversed. -/
theorem stats_invariant_under_reordering_witness :
    ssBetween [("A", [1, 2]), ("B", [3, 4])] = ssBetween [("B", [4, 3]), ("A", [2, 1])] ∧
    ssWithin [("A", [1, 2]), ("B", [3, 4])] = ssWithin [("B", [4, 3]), ("A", [2, 1])] ∧
    fStat [("A", [1, 2]), ("B", [3, 4])] = fStat [("B", [4, 3]), ("A", [2, 1])] ∧
    ∀ fTail : ℚ → ℕ → ℕ → ℚ,
      fTail (fStat [("A", [1, 2]), ("B", [3, 4])])
          (dfBetween [("A", [1, 2]), ("B", [3, 4])])
          (dfResidual [("A", [1, 2]), ("B", [3, 4])])
        = fTail (fStat [("B", [4, 3]), ("A", [2, 1])])
            (dfBetween [("B", [4, 3]), ("A", [2, 1])])
            (dfResidual [("B", [4, 3]), ("A", [2, 1])]) :=
  stats_invariant_under_reordering [("A", [1, 2]), ("B", [3, 4])]
    [("B", [4, 3]), ("A", [2, 1])] (by decide)
